import Mathlib

/-!
# Verification of the audio-projects backend (`src/backend/server.ts`)

Shallow embedding of the authentication and storage-consistency core of the
Express backend.  JavaScript strings are modelled as `List Char` (`JStr`), so
that `String.prototype.split`, `startsWith`, `slice` and concatenation become
`List.splitOn`, `List.isPrefixOf`, `List.drop` and `++`.  Machine randomness
(`crypto.randomBytes`) is passed in as explicit parameters; the opaque crypto
primitives (`crypto.scrypt`, base64 codecs, sha256) are abstracted as function
parameters whose relevant library guarantees appear as explicit hypotheses.
Fallible JavaScript operations (ones that can throw) are modelled with
`Except`; handler bodies that perform database / blob-store I/O are modelled
as pure state transformers over explicit store states, with injected success
flags for each fallible step and an event trace recording the side effects
that were issued.
-/

/-- JavaScript strings, modelled as lists of characters. -/
abbrev JStr := List Char

/-- JavaScript `String.prototype.trim` (whitespace stripped from both ends). -/
def trimJs (s : JStr) : JStr :=
  ((s.dropWhile Char.isWhitespace).reverse.dropWhile Char.isWhitespace).reverse

/-! ## Credential Engine (`hashPassword` / `verifyPassword`, server.ts:178-196) -/

/-- The opaque cryptographic collaborators used by the credential engine:
`crypto.scrypt` (password, salt, keylen ↦ derived key bytes) and the base64
codec used by `Buffer.toString('base64')` / `Buffer.from(_, 'base64')`.
These are Node library functions, not repository code, so they are abstract
here; the properties the repository relies on are stated as hypotheses of
the theorems. -/
structure Crypto where
  scryptF : JStr → List Nat → Nat → List Nat
  b64encode : List Nat → JStr
  b64decode : JStr → List Nat

/-- `crypto.timingSafeEqual`: compares two buffers, throwing when the lengths
differ (modelled as `Except.error`). -/
def timingSafeEqual (a b : List Nat) : Except Unit Bool :=
  if a.length = b.length then .ok (decide (a = b)) else .error ()

/-- The algorithm tag `"scrypt"`. -/
def scryptTag : JStr := ['s', 'c', 'r', 'y', 'p', 't']

/-- `hashPassword` (server.ts:180-184): a fresh 16-byte random `salt` is drawn
by the caller of this model; the record is
`scrypt$<base64 salt>$<base64 scrypt(password, salt, 64)>`. -/
def hashPassword (C : Crypto) (password : JStr) (salt : List Nat) : JStr :=
  scryptTag ++ '$' :: (C.b64encode salt ++ '$' :: C.b64encode (C.scryptF password salt 64))

/-- `verifyPassword` (server.ts:186-196): split the stored record on `'$'`,
require exactly three parts and the `scrypt` tag, recompute the derived key
with the stored salt at the stored key's length, and compare via
`timingSafeEqual` (guarded by an explicit length check).  The result is
`Except` because `timingSafeEqual` can throw and `verifyPassword` installs no
handler of its own. -/
def verifyPassword (C : Crypto) (password stored : JStr) : Except Unit Bool :=
  match stored.splitOn '$' with
  | [algo, saltB64, keyB64] =>
    if algo = scryptTag then
      let salt := C.b64decode saltB64
      let expected := C.b64decode keyB64
      let actual := C.scryptF password salt expected.length
      if expected.length ≠ actual.length then .ok false
      else timingSafeEqual expected actual
    else .ok false
  | _ => .ok false

/-- Splitting `a ++ '$' :: b ++ '$' :: c` on `'$'` recovers `[a, b, c]` when
none of the three pieces contains `'$'`. -/
theorem splitOn_record (a b c : JStr) (ha : '$' ∉ a) (hb : '$' ∉ b) (hc : '$' ∉ c) :
    (a ++ '$' :: (b ++ '$' :: c)).splitOn '$' = [a, b, c] := by
  have hA : ∀ x ∈ a, ¬ ((x == '$') = true) := by
    intro x hx h
    simp only [beq_iff_eq] at h
    exact ha (h ▸ hx)
  have hB : ∀ x ∈ b, ¬ ((x == '$') = true) := by
    intro x hx h
    simp only [beq_iff_eq] at h
    exact hb (h ▸ hx)
  have hC : ∀ x ∈ c, ¬ ((x == '$') = true) := by
    intro x hx h
    simp only [beq_iff_eq] at h
    exact hc (h ▸ hx)
  simp only [List.splitOn]
  exact (List.splitOnP_first (fun x => x == '$') a hA '$' (by simp) (b ++ '$' :: c)).trans
    (congrArg (a :: ·)
      ((List.splitOnP_first (fun x => x == '$') b hB '$' (by simp) c).trans
        (congrArg (b :: ·) (List.splitOnP_eq_single (fun x => x == '$') c hC))))

/-- C4: for every password `P` and salt, `verifyPassword P (hashPassword P salt)`
returns `true`; and for distinct passwords `P1`, `P2` whose scrypt-derived keys
for this salt differ (the "overwhelming probability" event),
`verifyPassword P1 (hashPassword P2 salt)` returns `false`.  The base64
roundtrip and alphabet facts, and the scrypt output-length contract, are the
Node library guarantees the code relies on, stated pointwise as hypotheses. -/
theorem C4_password_hash_verify_roundtrip (C : Crypto) (P1 P2 : JStr) (salt : List Nat)
    (hd1 : '$' ∉ C.b64encode salt)
    (hd2 : '$' ∉ C.b64encode (C.scryptF P2 salt 64))
    (hs : C.b64decode (C.b64encode salt) = salt)
    (hk : C.b64decode (C.b64encode (C.scryptF P2 salt 64)) = C.scryptF P2 salt 64)
    (hlen2 : (C.scryptF P2 salt 64).length = 64) :
    verifyPassword C P2 (hashPassword C P2 salt) = .ok true ∧
    (C.scryptF P1 salt 64 ≠ C.scryptF P2 salt 64 →
      verifyPassword C P1 (hashPassword C P2 salt) = .ok false) := by
  have hsplit := splitOn_record scryptTag (C.b64encode salt)
    (C.b64encode (C.scryptF P2 salt 64)) (by decide) hd1 hd2
  constructor
  · unfold verifyPassword hashPassword
    rw [hsplit]
    simp [hs, hk, hlen2, timingSafeEqual]
  · intro hne
    unfold verifyPassword hashPassword
    rw [hsplit]
    dsimp only
    rw [if_pos rfl]
    simp only [hs, hk, hlen2]
    by_cases hL : (C.scryptF P1 salt 64).length = 64
    · rw [if_neg (by simp [hL])]
      unfold timingSafeEqual
      rw [if_pos (by rw [hlen2, hL])]
      exact congrArg Except.ok (decide_eq_false (fun h => hne h.symm))
    · rw [if_pos (by simp; exact fun h => hL h.symm)]

/-- C5: `verifyPassword` fails closed: it never propagates an exception (its
only fallible step, `timingSafeEqual`, is guarded by the length check), and it
returns `false` on a record that does not split into exactly three
`'$'`-separated segments or whose algorithm tag is not `"scrypt"`. -/
theorem C5_verifyPassword_fails_closed (C : Crypto) (P stored : JStr) :
    (∃ b, verifyPassword C P stored = .ok b) ∧
    ((stored.splitOn '$').length ≠ 3 → verifyPassword C P stored = .ok false) ∧
    (∀ algo saltB64 keyB64, stored.splitOn '$' = [algo, saltB64, keyB64] →
      algo ≠ scryptTag → verifyPassword C P stored = .ok false) := by
  rcases hsp : stored.splitOn '$' with _ | ⟨a, _ | ⟨b2, _ | ⟨c2, _ | ⟨d, t⟩⟩⟩⟩
  · exact ⟨⟨false, by simp [verifyPassword, hsp]⟩, fun _ => by simp [verifyPassword, hsp],
      fun _ _ _ h _ => by simp [hsp] at h⟩
  · exact ⟨⟨false, by simp [verifyPassword, hsp]⟩, fun _ => by simp [verifyPassword, hsp],
      fun _ _ _ h _ => by simp [hsp] at h⟩
  · exact ⟨⟨false, by simp [verifyPassword, hsp]⟩, fun _ => by simp [verifyPassword, hsp],
      fun _ _ _ h _ => by simp [hsp] at h⟩
  · refine ⟨?_, fun h => absurd (by simp [hsp]) h, ?_⟩
    · by_cases hA : a = scryptTag
      · by_cases hL : (C.b64decode c2).length =
            (C.scryptF P (C.b64decode b2) (C.b64decode c2).length).length
        · refine ⟨decide ((C.b64decode c2) =
            (C.scryptF P (C.b64decode b2) (C.b64decode c2).length)), ?_⟩
          unfold verifyPassword
          rw [hsp]
          dsimp only
          rw [if_pos hA]
          rw [if_neg (not_not_intro hL)]
          unfold timingSafeEqual
          rw [if_pos hL]
        · refine ⟨false, ?_⟩
          unfold verifyPassword
          rw [hsp]
          dsimp only
          rw [if_pos hA]
          rw [if_pos hL]
      · refine ⟨false, ?_⟩
        unfold verifyPassword
        rw [hsp]
        dsimp only
        rw [if_neg hA]
    · intro algo saltB64 keyB64 heq hne
      injection heq with h1 h2
      subst h1
      unfold verifyPassword
      rw [hsp]
      dsimp only
      rw [if_neg hne]
  · exact ⟨⟨false, by simp [verifyPassword, hsp]⟩, fun _ => by simp [verifyPassword, hsp],
      fun _ _ _ h _ => by simp [hsp] at h⟩

/-- A concrete instantiation of the abstract crypto collaborators, used by the
witnesses to show the library-contract hypotheses are satisfiable: a toy
key-derivation function of the right length and a run-length codec over the
`'$'`-free alphabet `{x, .}`. -/
def wCrypto : Crypto where
  scryptF := fun p s n => List.replicate n ((p.length + s.sum) % 2)
  b64encode := fun b => b.flatMap (fun n => List.replicate n 'x' ++ ['.'])
  b64decode := fun s => ((s.splitOn '.').map List.length).dropLast

theorem C4_witness :
    verifyPassword wCrypto ['a', 'b'] (hashPassword wCrypto ['a', 'b'] [1, 2]) = .ok true ∧
    verifyPassword wCrypto ['a'] (hashPassword wCrypto ['a', 'b'] [1, 2]) = .ok false := by
  have h := C4_password_hash_verify_roundtrip wCrypto ['a'] ['a', 'b'] [1, 2]
    (by decide) (by decide) (by decide) (by decide) (by decide)
  exact ⟨h.1, h.2 (by decide)⟩

theorem C5_witness :
    (∃ b, verifyPassword wCrypto ['p'] ['a'] = .ok b) ∧
    verifyPassword wCrypto ['p'] ['a'] = .ok false := by
  have h := C5_verifyPassword_fails_closed wCrypto ['p'] ['a']
  exact ⟨h.1, h.2.1 (by decide)⟩

/-! ## Session Store (server.ts:198-248, 456-525)

`generateSessionToken` is `crypto.randomBytes(32).toString('base64url')`: an
opaque random string of exactly 43 base64url characters, drawn by the caller
of these models.  `hashSessionToken` is a sha256 hex digest (64 characters),
abstracted as a function parameter `sha256`. -/

/-- User roles (`UserRole` in server.ts). -/
inductive Role
  | user
  | admin
deriving DecidableEq, Repr

/-- The authenticated principal (`AuthUser` in server.ts). -/
structure AuthUser where
  id : Nat
  username : JStr
  role : Role
deriving DecidableEq, Repr

/-- A row of the `users` table. -/
structure UserRow where
  id : Nat
  username : JStr
  role : Role
  password_hash : JStr
deriving DecidableEq, Repr

/-- A row of the `sessions` table; timestamps are epoch milliseconds. -/
structure SessionRow where
  token_hash : JStr
  user_id : Nat
  expires_at : Nat
deriving DecidableEq, Repr

/-- The authentication-relevant database state. -/
structure AuthDb where
  users : List UserRow
  sessions : List SessionRow
deriving DecidableEq, Repr

/-- `authMiddleware`'s hashed-token lookup (server.ts:209-238): hash the
presented token, select a session with that hash that has not expired
(`expires_at > NOW()`), join its user, and return `{id, username, role}`.
`find?` models `rows[0]` of the single-row result guaranteed by the UNIQUE
constraint on `token_hash`. -/
def resolveToken (sha256 : JStr → JStr) (db : AuthDb) (token : JStr) (now : Nat) :
    Option AuthUser :=
  let tokenHash := sha256 token
  match db.sessions.find? (fun s => decide (s.token_hash = tokenHash ∧ s.expires_at > now)) with
  | none => none
  | some s =>
    match db.users.find? (fun u => decide (u.id = s.user_id)) with
    | none => none
    | some u => some ⟨u.id, u.username, u.role⟩

/-- The session insertion shared by register (server.ts:456-463) and login
(server.ts:497-504): `INSERT INTO sessions (token_hash, user_id, expires_at)
VALUES (sha256(token), uid, now + ttlMs)` where
`ttlMs = SESSION_TTL_DAYS * 24 * 60 * 60 * 1000`. -/
def issueSession (sha256 : JStr → JStr) (db : AuthDb) (token : JStr) (uid : Nat)
    (now ttlMs : Nat) : AuthDb :=
  { db with sessions := db.sessions ++ [⟨sha256 token, uid, now + ttlMs⟩] }

/-- `POST /api/auth/logout` (server.ts:514-525), including the
`authMiddleware`/`requireAuth` gate in front of it: with no resolvable
session the request stops at `requireAuth` with a 401; otherwise
`DELETE FROM sessions WHERE token_hash = $1` runs and `{ok: true}` (200) is
returned.  The result is the new database state and the HTTP status. -/
def logoutEndpoint (sha256 : JStr → JStr) (db : AuthDb) (token : JStr) (now : Nat) :
    AuthDb × Nat :=
  match resolveToken sha256 db token now with
  | none => (db, 401)
  | some _ =>
    ({ db with sessions := db.sessions.filter (fun s => decide (s.token_hash ≠ sha256 token)) },
      200)

/-- C6: after a session for token `T` is issued (register/login), resolving
`T` returns the issuing user's `{id, username, role}` at every time strictly
before `expires_at = now0 + ttl`, and returns none at every time strictly
after.  `hfresh` is the UNIQUE constraint on `token_hash` (the insert
succeeded), `huser` the join partner of the session row. -/
theorem C6_resolve_issued_token (sha256 : JStr → JStr) (db : AuthDb) (T : JStr)
    (u : UserRow) (now0 ttl : Nat)
    (hfresh : ∀ s ∈ db.sessions, s.token_hash ≠ sha256 T)
    (huser : db.users.find? (fun w => decide (w.id = u.id)) = some u) :
    (∀ t, t < now0 + ttl →
      resolveToken sha256 (issueSession sha256 db T u.id now0 ttl) T t =
        some ⟨u.id, u.username, u.role⟩) ∧
    (∀ t, now0 + ttl < t →
      resolveToken sha256 (issueSession sha256 db T u.id now0 ttl) T t = none) := by
  have hnone : ∀ t, db.sessions.find?
      (fun s => decide (s.token_hash = sha256 T ∧ s.expires_at > t)) = none := by
    intro t
    rw [List.find?_eq_none]
    intro s hs
    simp only [decide_eq_true_eq, not_and]
    intro hh
    exact absurd hh (hfresh s hs)
  constructor
  · intro t ht
    unfold resolveToken issueSession
    dsimp only
    rw [List.find?_append, hnone t]
    simp only [Option.none_or]
    rw [List.find?_cons_of_pos _ (by simp [ht])]
    simp only
    rw [huser]
  · intro t ht
    unfold resolveToken issueSession
    dsimp only
    rw [List.find?_append, hnone t]
    simp only [Option.none_or]
    rw [List.find?_cons_of_neg _ (by simp; omega)]
    simp [List.find?_nil]

/-- A concrete stand-in for the sha256 hex digest used by witnesses that do
not depend on digest length. -/
def wSha (s : JStr) : JStr := 'h' :: s

/-- A concrete user row used by witnesses. -/
def wUser : UserRow := ⟨1, ['a', 'l', 'i', 'c', 'e'], .user, []⟩

/-- A concrete database state (one user, no sessions) used by witnesses. -/
def wDb : AuthDb := ⟨[wUser], []⟩

theorem C6_witness :
    resolveToken wSha (issueSession wSha wDb ['t'] 1 100 50) ['t'] 120 =
      some ⟨1, ['a', 'l', 'i', 'c', 'e'], .user⟩ ∧
    resolveToken wSha (issueSession wSha wDb ['t'] 1 100 50) ['t'] 200 = none := by
  have h := C6_resolve_issued_token wSha wDb ['t'] wUser 100 50
    (by intro s hs; simp [wDb] at hs) (by decide)
  exact ⟨h.1 120 (by decide), h.2 200 (by decide)⟩

/-- C7 counterexample: with one valid session, logging out twice with the same
token is not "a no-op that succeeds both times": the first call returns 200,
the second stops at `requireAuth` with status 401 (an error response), because
the revoked token no longer resolves to a session. -/
theorem C7_counterexample :
    (logoutEndpoint wSha (issueSession wSha wDb ['t'] 1 100 50) ['t'] 110).2 = 200 ∧
    (logoutEndpoint wSha
      (logoutEndpoint wSha (issueSession wSha wDb ['t'] 1 100 50) ['t'] 110).1
      ['t'] 110).2 = 401 := by
  decide

/-- C7 (amended): after a successful logout of token `T`, resolving `T`
returns none at every time; and a second logout with `T` is a no-op on the
database state, but it is reported as a 401 authentication error rather than
as a success, because `requireAuth` rejects the now-unresolvable token. -/
theorem C7_revoke_then_resolve (sha256 : JStr → JStr) (db : AuthDb) (T : JStr) (now : Nat)
    (db2 : AuthDb) (h : logoutEndpoint sha256 db T now = (db2, 200)) :
    (∀ t, resolveToken sha256 db2 T t = none) ∧
    logoutEndpoint sha256 db2 T now = (db2, 401) := by
  have hdb2 : db2.sessions = db.sessions.filter (fun s => decide (s.token_hash ≠ sha256 T)) := by
    unfold logoutEndpoint at h
    cases hres : resolveToken sha256 db T now with
    | none => rw [hres] at h; exact absurd (congrArg Prod.snd h) (by simp)
    | some u =>
      rw [hres] at h
      have := congrArg Prod.fst h
      simp only at this
      rw [← this]
  have hresolve : ∀ t, resolveToken sha256 db2 T t = none := by
    intro t
    unfold resolveToken
    dsimp only
    have hfind : db2.sessions.find?
        (fun s => decide (s.token_hash = sha256 T ∧ s.expires_at > t)) = none := by
      rw [List.find?_eq_none]
      intro s hs
      rw [hdb2] at hs
      have := List.of_mem_filter hs
      simp only [decide_eq_true_eq] at this
      simp only [decide_eq_true_eq, not_and]
      intro hh
      exact absurd hh this
    rw [hfind]
  refine ⟨hresolve, ?_⟩
  unfold logoutEndpoint
  rw [hresolve now]

theorem C7_witness :
    resolveToken wSha
      (logoutEndpoint wSha (issueSession wSha wDb ['t'] 1 100 50) ['t'] 110).1 ['t'] 120 = none ∧
    logoutEndpoint wSha
      (logoutEndpoint wSha (issueSession wSha wDb ['t'] 1 100 50) ['t'] 110).1 ['t'] 110 =
      ((logoutEndpoint wSha (issueSession wSha wDb ['t'] 1 100 50) ['t'] 110).1, 401) := by
  have h := C7_revoke_then_resolve wSha (issueSession wSha wDb ['t'] 1 100 50) ['t'] 110
    (logoutEndpoint wSha (issueSession wSha wDb ['t'] 1 100 50) ['t'] 110).1 (by decide)
  exact ⟨h.1 120, h.2⟩

/-- The session-table states reachable through the operations of this server:
the table starts empty (`initDb` creates it, and the startup sweep only
deletes rows); register and login append a row whose `token_hash` is the
sha256 digest of a fresh 43-character base64url token
(`generateSessionToken`, server.ts:198); logout deletes rows by hash; the
startup sweep (server.ts:423) deletes expired rows. -/
inductive SessionsReachable (sha256 : JStr → JStr) : List SessionRow → Prop
  | init : SessionsReachable sha256 []
  | issue (rows : List SessionRow) (token : JStr) (uid now ttl : Nat)
      (htok : token.length = 43) :
      SessionsReachable sha256 rows →
      SessionsReachable sha256 (rows ++ [⟨sha256 token, uid, now + ttl⟩])
  | revoke (rows : List SessionRow) (token : JStr) :
      SessionsReachable sha256 rows →
      SessionsReachable sha256 (rows.filter (fun s => decide (s.token_hash ≠ sha256 token)))
  | sweep (rows : List SessionRow) (now : Nat) :
      SessionsReachable sha256 rows →
      SessionsReachable sha256 (rows.filter (fun s => decide (s.expires_at > now)))

/-- C8: in every reachable session-table state, every stored `token_hash` is a
64-character sha256 hex digest, and therefore never equal to any raw issued
bearer token (which is the 43-character base64url rendering of 32 random
bytes): a database read alone never yields a usable raw token. -/
theorem C8_raw_token_never_stored (sha256 : JStr → JStr)
    (hsha : ∀ s, (sha256 s).length = 64)
    (rows : List SessionRow) (hr : SessionsReachable sha256 rows) :
    ∀ row ∈ rows, row.token_hash.length = 64 ∧
      ∀ rawToken : JStr, rawToken.length = 43 → row.token_hash ≠ rawToken := by
  induction hr with
  | init => intro row hrow; exact absurd hrow (List.not_mem_nil row)
  | issue rows token uid now ttl htok hprev ih =>
    intro row hrow
    rcases List.mem_append.mp hrow with hl | hr2
    · exact ih row hl
    · have : row = ⟨sha256 token, uid, now + ttl⟩ := List.mem_singleton.mp hr2
      subst this
      refine ⟨hsha token, fun rawToken hraw heq => ?_⟩
      have heq2 : sha256 token = rawToken := heq
      have h64 : (sha256 token).length = 64 := hsha token
      rw [heq2, hraw] at h64
      omega
  | revoke rows token hprev ih =>
    intro row hrow
    exact ih row (List.mem_of_mem_filter hrow)
  | sweep rows now hprev ih =>
    intro row hrow
    exact ih row (List.mem_of_mem_filter hrow)

/-- A concrete digest function with 64-character output, used by the C8
witness. -/
def wSha64 (_s : JStr) : JStr := List.replicate 64 'h'

theorem C8_witness :
    (⟨wSha64 (List.replicate 43 't'), 1, 100 + 50⟩ : SessionRow).token_hash.length = 64 ∧
    (⟨wSha64 (List.replicate 43 't'), 1, 100 + 50⟩ : SessionRow).token_hash ≠
      List.replicate 43 't' := by
  have h := C8_raw_token_never_stored wSha64 (fun s => by simp [wSha64])
    ([] ++ [⟨wSha64 (List.replicate 43 't'), 1, 100 + 50⟩])
    (SessionsReachable.issue [] (List.replicate 43 't') 1 100 50 (by simp)
      SessionsReachable.init)
    ⟨wSha64 (List.replicate 43 't'), 1, 100 + 50⟩ (by simp)
  exact ⟨h.1, h.2 (List.replicate 43 't') (by simp)⟩

/-! ## Projects (server.ts:152-164, 276-298, 623-644) -/

/-- A row of the `projects` table (`ProjectRow` in server.ts). -/
structure ProjectRow where
  id : Nat
  name : JStr
  audio_url : JStr
  audio_object_key : Option JStr
  transcription : Option JStr
  emotional_analysis : Option JStr
  cover_url : Option JStr
  cover_object_key : Option JStr
  created_at : Nat
  user_id : Option Nat
deriving DecidableEq, Repr

/-- `requireProjectWriteAccess` (server.ts:276-284): 404 when the project does
not exist, 403 when the caller is neither admin nor the recorded owner. -/
def requireProjectWriteAccess (projects : List ProjectRow) (pid : Nat) (user : AuthUser) :
    Except Nat ProjectRow :=
  match projects.find? (fun p => decide (p.id = pid)) with
  | none => .error 404
  | some project =>
    if user.role ≠ .admin ∧ project.user_id ≠ some user.id then .error 403
    else .ok project

/-- `PUT /api/projects/:id` (server.ts:623-644): trim the submitted name,
reject an empty result with 400, check write access, then run
`UPDATE projects SET name = $1 WHERE id = $2`.  Returns the new table state
and the HTTP status. -/
def putProjectEndpoint (projects : List ProjectRow) (pid : Nat) (user : AuthUser)
    (rawName : JStr) : List ProjectRow × Nat :=
  let name := trimJs rawName
  if name = [] then (projects, 400)
  else
    match requireProjectWriteAccess projects pid user with
    | .error status => (projects, status)
    | .ok _ =>
      (projects.map (fun p => if p.id = pid then { p with name := name } else p), 200)

/-- `requireProjectWriteAccess` can only fail with status 404 or 403. -/
theorem requireProjectWriteAccess_error_status (projects : List ProjectRow) (pid : Nat)
    (user : AuthUser) (s : Nat)
    (h : requireProjectWriteAccess projects pid user = .error s) : s = 404 ∨ s = 403 := by
  unfold requireProjectWriteAccess at h
  cases hf : projects.find? (fun p => decide (p.id = pid)) with
  | none =>
    rw [hf] at h
    dsimp only at h
    injection h with h2
    exact Or.inl h2.symm
  | some project =>
    rw [hf] at h
    dsimp only at h
    by_cases hc : user.role ≠ .admin ∧ project.user_id ≠ some user.id
    · rw [if_pos hc] at h
      injection h with h2
      exact Or.inr h2.symm
    · rw [if_neg hc] at h
      exact absurd h (by simp)

/-- C10: when the rename endpoint succeeds (status 200), the table keeps the
same rows in the same order; every row keeps its `id`, `audio_url`,
`audio_object_key`, `transcription`, `emotional_analysis`, `cover_url`,
`cover_object_key`, `created_at` and `user_id`; rows whose id differs from the
target are completely unchanged; and the target row's name becomes the
trimmed submitted name. -/
theorem C10_rename_updates_only_name (projects : List ProjectRow) (pid : Nat)
    (user : AuthUser) (rawName : JStr) (out : List ProjectRow × Nat)
    (hout : putProjectEndpoint projects pid user rawName = out) (hok : out.2 = 200) :
    out.1.length = projects.length ∧
    ∀ i, ∀ hi : i < projects.length, ∃ q, out.1[i]? = some q ∧
      (q.id = projects[i].id ∧
       q.audio_url = projects[i].audio_url ∧
       q.audio_object_key = projects[i].audio_object_key ∧
       q.transcription = projects[i].transcription ∧
       q.emotional_analysis = projects[i].emotional_analysis ∧
       q.cover_url = projects[i].cover_url ∧
       q.cover_object_key = projects[i].cover_object_key ∧
       q.created_at = projects[i].created_at ∧
       q.user_id = projects[i].user_id) ∧
      (projects[i].id ≠ pid → q = projects[i]) ∧
      (projects[i].id = pid → q.name = trimJs rawName) := by
  unfold putProjectEndpoint at hout
  by_cases hname : trimJs rawName = []
  · rw [if_pos hname] at hout
    rw [← hout] at hok
    exact absurd hok (by simp)
  · rw [if_neg hname] at hout
    cases hacc : requireProjectWriteAccess projects pid user with
    | error status =>
      rw [hacc] at hout
      rw [← hout] at hok
      simp only at hok
      rcases requireProjectWriteAccess_error_status projects pid user status hacc with h4 | h4 <;>
        omega
    | ok proj =>
      rw [hacc] at hout
      dsimp only at hout
      have h1 : out.1 =
          projects.map (fun p => if p.id = pid then { p with name := trimJs rawName } else p) :=
        (congrArg Prod.fst hout).symm
      constructor
      · rw [h1, List.length_map]
      · intro i hi
        refine ⟨if projects[i].id = pid then { projects[i] with name := trimJs rawName }
          else projects[i], ?_, ?_, ?_, ?_⟩
        · rw [h1]
          rw [List.getElem?_map]
          rw [List.getElem?_eq_getElem hi]
          rfl
        · by_cases hid : projects[i].id = pid
          · rw [if_pos hid]
            exact ⟨rfl, rfl, rfl, rfl, rfl, rfl, rfl, rfl, rfl⟩
          · rw [if_neg hid]
            exact ⟨rfl, rfl, rfl, rfl, rfl, rfl, rfl, rfl, rfl⟩
        · intro hid
          rw [if_neg hid]
        · intro hid
          rw [if_pos hid]

/-! ## Local Disk path sandbox (`resolveUploadsPath`, server.ts:263-274)

`uploadsDir = path.join(__dirname, 'uploads')` is an absolute, already
normalized POSIX path; it enters the model as its segment list `baseSegs`.
`resolveUploadsPath` is a pure function: it performs no filesystem
operation itself, so a thrown error (modelled as `Except.error`) occurs
before any read, write or delete its callers might do with the result. -/

/-- One step of POSIX path normalization over an absolute path, as performed
by Node's `path.resolve`: empty segments (from `//`) and `.` are skipped,
`..` pops the last segment (and is dropped at the root), anything else is
pushed. -/
def normStep (stack : List JStr) (seg : JStr) : List JStr :=
  if seg = [] ∨ seg = ['.'] then stack
  else if seg = ['.', '.'] then stack.dropLast
  else stack ++ [seg]

/-- Normalization of an absolute path given by raw segments. -/
def normSegs (segs : List JStr) : List JStr := segs.foldl normStep []

/-- Render an absolute POSIX path from its segments
(`'/' + segs.join('/')`; the empty segment list renders as `"/"`). -/
def renderAbs (segs : List JStr) : JStr :=
  if segs = [] then ['/'] else segs.flatMap (fun s => '/' :: s)

/-- Node's `path.resolve(uploadsDir, relativePath)` (POSIX): an absolute
`relativePath` is normalized on its own, otherwise the concatenation of the
base's segments with `relativePath`'s raw `'/'`-split segments is
normalized. -/
def pathResolve (baseSegs : List JStr) (rel : JStr) : List JStr :=
  if rel.head? = some '/' then normSegs (rel.splitOn '/')
  else normSegs (baseSegs ++ rel.splitOn '/')

/-- The literal `'/uploads/'`. -/
def uploadsSlash : JStr := ['/', 'u', 'p', 'l', 'o', 'a', 'd', 's', '/']

/-- `resolveUploadsPath` (server.ts:263-274): reject a URL that does not
start with `'/uploads/'`; resolve the remainder against `uploadsDir`;
reject the result unless it starts with `path.resolve(uploadsDir) +
path.sep`; otherwise return the resolved path. -/
def resolveUploadsPath (baseSegs : List JStr) (uploadsUrl : JStr) : Except JStr JStr :=
  if ¬ uploadsSlash.isPrefixOf uploadsUrl then
    .error "Invalid uploads URL".data
  else
    let relativePath := uploadsUrl.drop uploadsSlash.length
    let fullPath := renderAbs (pathResolve baseSegs relativePath)
    let uploadsRoot := renderAbs baseSegs ++ ['/']
    if ¬ uploadsRoot.isPrefixOf fullPath then
      .error "Invalid uploads path".data
    else
      .ok fullPath

/-- Every segment in a `normStep` fold comes from the accumulator or from the
input list. -/
theorem mem_foldl_normStep (l : List JStr) (acc : List JStr) :
    ∀ s ∈ l.foldl normStep acc, s ∈ acc ∨ s ∈ l := by
  induction l generalizing acc with
  | nil => intro s hs; exact Or.inl hs
  | cons x xs ih =>
    intro s hs
    simp only [List.foldl_cons] at hs
    rcases ih (normStep acc x) s hs with h | h
    · unfold normStep at h
      by_cases h1 : x = [] ∨ x = ['.']
      · rw [if_pos h1] at h
        exact Or.inl h
      · rw [if_neg h1] at h
        by_cases h2 : x = ['.', '.']
        · rw [if_pos h2] at h
          exact Or.inl (List.dropLast_subset acc h)
        · rw [if_neg h2] at h
          rcases List.mem_append.mp h with h3 | h3
          · exact Or.inl h3
          · rw [List.mem_singleton.mp h3]
            exact Or.inr (List.mem_cons_self x xs)
    · exact Or.inr (List.mem_cons_of_mem x h)

/-- A `normStep` fold from a well-formed accumulator never contains an empty
segment, `.` or `..`. -/
theorem foldl_normStep_good (l : List JStr) (acc : List JStr)
    (hacc : ∀ s ∈ acc, s ≠ [] ∧ s ≠ ['.'] ∧ s ≠ ['.', '.']) :
    ∀ s ∈ l.foldl normStep acc, s ≠ [] ∧ s ≠ ['.'] ∧ s ≠ ['.', '.'] := by
  induction l generalizing acc with
  | nil => exact hacc
  | cons x xs ih =>
    intro s hs
    simp only [List.foldl_cons] at hs
    refine ih (normStep acc x) ?_ s hs
    intro t ht
    unfold normStep at ht
    by_cases h1 : x = [] ∨ x = ['.']
    · rw [if_pos h1] at ht
      exact hacc t ht
    · rw [if_neg h1] at ht
      by_cases h2 : x = ['.', '.']
      · rw [if_pos h2] at ht
        exact hacc t (List.dropLast_subset acc ht)
      · rw [if_neg h2] at ht
        rcases List.mem_append.mp ht with h3 | h3
        · exact hacc t h3
        · rw [List.mem_singleton.mp h3]
          push_neg at h1
          exact ⟨h1.1, h1.2, h2⟩

/-- Every piece produced by `splitOn '/'` is free of `'/'`. -/
theorem splitOn_slash_free (l : JStr) : ∀ p ∈ l.splitOn '/', '/' ∉ p := by
  have main : ∀ l : JStr, ∀ p ∈ l.splitOnP (fun c => c == '/'), '/' ∉ p := by
    intro l
    induction l with
    | nil =>
      intro p hp
      rw [List.splitOnP_nil] at hp
      rw [List.mem_singleton.mp hp]
      exact List.not_mem_nil '/'
    | cons x xs ih =>
      intro p hp
      rw [List.splitOnP_cons] at hp
      by_cases hx : (x == '/') = true
      · rw [if_pos hx] at hp
        rcases List.mem_cons.mp hp with h | h
        · rw [h]; exact List.not_mem_nil '/'
        · exact ih p h
      · rw [if_neg hx] at hp
        cases hsp : xs.splitOnP (fun c => c == '/') with
        | nil => exact absurd hsp (List.splitOnP_ne_nil _ xs)
        | cons q qs =>
          rw [hsp] at hp
          simp only [List.modifyHead] at hp
          rcases List.mem_cons.mp hp with h | h
          · rw [h]
            intro hmem
            rcases List.mem_cons.mp hmem with h2 | h2
            · rw [beq_iff_eq] at hx
              exact hx h2.symm
            · exact ih q (hsp ▸ List.mem_cons_self q qs) h2
          · exact ih p (hsp ▸ List.mem_cons_of_mem q h)
  exact main l

/-- The head of `l.flatMap (fun s => '/' :: s) ++ ['/']` is always `'/'`:
the whole is `'/' :: rest` for some rest. -/
theorem flatMap_slash_cons (l : List JStr) :
    ∃ rest, l.flatMap (fun s => '/' :: s) ++ ['/'] = '/' :: rest := by
  cases l with
  | nil => exact ⟨[], rfl⟩
  | cons w ws =>
    exact ⟨w ++ (ws.flatMap (fun s => '/' :: s) ++ ['/']), by simp⟩

/-- Segment-level cancellation for rendered POSIX paths: if the rendering of
`a` followed by a separator is a character-level prefix of the rendering of
`b`, and no segment contains `'/'`, then `a` is a segment-level prefix of
`b`. -/
theorem flatMap_slash_prefix_cancel (a : List JStr) :
    ∀ b : List JStr, (∀ s ∈ a, '/' ∉ s) → (∀ s ∈ b, '/' ∉ s) →
    (a.flatMap (fun s => '/' :: s) ++ ['/']) <+: b.flatMap (fun s => '/' :: s) →
    a <+: b := by
  induction a with
  | nil => intro b _ _ _; exact List.nil_prefix
  | cons s a2 ih =>
    intro b ha hb h
    cases b with
    | nil =>
      exfalso
      rw [List.flatMap_nil, List.prefix_nil] at h
      simp at h
    | cons t b2 =>
      have hLHS : (s :: a2).flatMap (fun s => '/' :: s) ++ ['/'] =
          '/' :: (s ++ (a2.flatMap (fun s => '/' :: s) ++ ['/'])) := by simp
      have hRHS : (t :: b2).flatMap (fun s => '/' :: s) =
          '/' :: (t ++ b2.flatMap (fun s => '/' :: s)) := by simp
      rw [hLHS, hRHS, List.cons_prefix_cons] at h
      have h2 := h.2
      have hst : s = t := by
        have hsor := List.prefix_or_prefix_of_prefix
          ((List.prefix_append s (a2.flatMap (fun s => '/' :: s) ++ ['/'])).trans h2)
          (List.prefix_append t (b2.flatMap (fun s => '/' :: s)))
        obtain ⟨u, hu⟩ := h2
        simp only [List.append_assoc] at hu
        rcases hsor with hpre | hpre
        · obtain ⟨v, hv⟩ := hpre
          rcases hv0 : v with _ | ⟨c, v2⟩
          · rw [hv0, List.append_nil] at hv
            exact hv
          · exfalso
            rw [hv0] at hv
            rw [← hv] at hu
            simp only [List.append_assoc, List.cons_append] at hu
            have hcanc := List.append_cancel_left hu
            have hc : ('/' : Char) = c := by
              cases ha2 : a2 with
              | nil =>
                rw [ha2] at hcanc
                simp only [List.flatMap_nil, List.nil_append] at hcanc
                injection hcanc with hc _
              | cons w ws =>
                rw [ha2] at hcanc
                simp only [List.flatMap_cons, List.cons_append, List.append_assoc] at hcanc
                injection hcanc with hc _
            refine hb t (List.mem_cons_self t b2) ?_
            rw [← hv, hc]
            exact List.mem_append_right s (List.mem_cons_self c v2)
        · obtain ⟨v, hv⟩ := hpre
          rcases hv0 : v with _ | ⟨c, v2⟩
          · rw [hv0, List.append_nil] at hv
            exact hv.symm
          · exfalso
            rw [hv0] at hv
            rw [← hv] at hu
            simp only [List.append_assoc, List.cons_append] at hu
            have hcanc := List.append_cancel_left hu
            cases hb2 : b2 with
            | nil =>
              rw [hb2] at hcanc
              simp at hcanc
            | cons w ws =>
              rw [hb2, List.flatMap_cons, List.cons_append] at hcanc
              injection hcanc with hc _
              refine ha s (List.mem_cons_self s a2) ?_
              rw [← hv, ← hc]
              exact List.mem_append_right t (List.mem_cons_self c v2)
      subst hst
      rw [List.cons_prefix_cons]
      refine ⟨rfl, ?_⟩
      obtain ⟨u, hu⟩ := h2
      rw [List.append_assoc] at hu
      have hcanc := List.append_cancel_left hu
      refine ih b2 (fun x hx => ha x (List.mem_cons_of_mem s hx))
        (fun x hx => hb x (List.mem_cons_of_mem s hx)) ⟨u, hcanc⟩

/-- Every segment of a resolved path is fully normalized (no empty, `.` or
`..` segment) and `'/'`-free, provided the base's segments are `'/'`-free. -/
theorem pathResolve_segments_good (baseSegs : List JStr) (rel : JStr)
    (hbase : ∀ s ∈ baseSegs, '/' ∉ s) :
    ∀ s ∈ pathResolve baseSegs rel,
      s ≠ [] ∧ s ≠ ['.'] ∧ s ≠ ['.', '.'] ∧ '/' ∉ s := by
  intro s hs
  unfold pathResolve at hs
  by_cases hh : rel.head? = some '/'
  · rw [if_pos hh] at hs
    have hg := foldl_normStep_good (rel.splitOn '/') []
      (by intro t ht; exact absurd ht (List.not_mem_nil t)) s hs
    rcases mem_foldl_normStep (rel.splitOn '/') [] s hs with h | h
    · exact absurd h (List.not_mem_nil s)
    · exact ⟨hg.1, hg.2.1, hg.2.2, splitOn_slash_free rel s h⟩
  · rw [if_neg hh] at hs
    have hg := foldl_normStep_good (baseSegs ++ rel.splitOn '/') []
      (by intro t ht; exact absurd ht (List.not_mem_nil t)) s hs
    rcases mem_foldl_normStep (baseSegs ++ rel.splitOn '/') [] s hs with h | h
    · exact absurd h (List.not_mem_nil s)
    · rcases List.mem_append.mp h with h2 | h2
      · exact ⟨hg.1, hg.2.1, hg.2.2, hbase s h2⟩
      · exact ⟨hg.1, hg.2.1, hg.2.2, splitOn_slash_free rel s h2⟩

/-- C3: `resolveUploadsPath` throws on any URL not beginning with
`'/uploads/'`; throws whenever the canonicalized resolution of the rest of
the URL (per Node `path.resolve`: `..` pops, absolute remainders restart at
the root) does not lie strictly below the uploads root; and any returned
path is the canonical resolution, whose segments extend the uploads root's
segments by at least one fully normalized segment — so the returned path is
inside the uploads root.  The function performs no filesystem operation, so
every rejection happens before any read, write or delete. -/
theorem C3_resolveUploadsPath_sandbox (baseSegs : List JStr) (url : JStr)
    (hbase : ∀ s ∈ baseSegs, s ≠ [] ∧ '/' ∉ s) (hbase0 : baseSegs ≠ []) :
    (¬ uploadsSlash.isPrefixOf url →
      resolveUploadsPath baseSegs url = .error "Invalid uploads URL".data) ∧
    (uploadsSlash.isPrefixOf url →
      ¬ (renderAbs baseSegs ++ ['/']).isPrefixOf
          (renderAbs (pathResolve baseSegs (url.drop uploadsSlash.length))) →
      resolveUploadsPath baseSegs url = .error "Invalid uploads path".data) ∧
    (∀ p, resolveUploadsPath baseSegs url = .ok p →
      ∃ extra, extra ≠ [] ∧
        pathResolve baseSegs (url.drop uploadsSlash.length) = baseSegs ++ extra ∧
        p = renderAbs (baseSegs ++ extra) ∧
        ∀ s ∈ extra, s ≠ [] ∧ s ≠ ['.'] ∧ s ≠ ['.', '.'] ∧ '/' ∉ s) := by
  obtain ⟨b0, brest, hb0⟩ := List.exists_cons_of_ne_nil hbase0
  refine ⟨?_, ?_, ?_⟩
  · intro h
    unfold resolveUploadsPath
    rw [if_pos h]
  · intro h1 h2
    unfold resolveUploadsPath
    rw [if_neg (not_not_intro h1)]
    dsimp only
    rw [if_pos h2]
  · intro p hp
    unfold resolveUploadsPath at hp
    by_cases h1 : uploadsSlash.isPrefixOf url
    · rw [if_neg (not_not_intro h1)] at hp
      dsimp only at hp
      by_cases h2 : (renderAbs baseSegs ++ ['/']).isPrefixOf
          (renderAbs (pathResolve baseSegs (url.drop uploadsSlash.length)))
      · rw [if_neg (not_not_intro h2)] at hp
        injection hp with hp
        set full := pathResolve baseSegs (url.drop uploadsSlash.length) with hfull
        have hgood := pathResolve_segments_good baseSegs (url.drop uploadsSlash.length)
          (fun s hs => (hbase s hs).2)
        have hpre : (renderAbs baseSegs ++ ['/']) <+: renderAbs full :=
          List.isPrefixOf_iff_prefix.mp h2
        have hblen : 1 ≤ (renderAbs baseSegs).length := by
          rw [hb0]
          unfold renderAbs
          rw [if_neg (by simp)]
          simp
        have hfne : full ≠ [] := by
          intro hnil
          have hle : (renderAbs baseSegs ++ ['/']).length ≤ (renderAbs full).length :=
            hpre.length_le
          rw [hnil] at hle
          have hone : (renderAbs ([] : List JStr)).length = 1 := by
            unfold renderAbs
            rw [if_pos rfl]
            rfl
          rw [List.length_append, hone] at hle
          simp only [List.length_singleton] at hle
          omega
        have hrb : renderAbs baseSegs = baseSegs.flatMap (fun s => '/' :: s) := by
          unfold renderAbs
          rw [if_neg hbase0]
        have hrf : renderAbs full = full.flatMap (fun s => '/' :: s) := by
          unfold renderAbs
          rw [if_neg hfne]
        rw [hrb, hrf] at hpre
        have hbf : baseSegs <+: full :=
          flatMap_slash_prefix_cancel baseSegs full (fun s hs => (hbase s hs).2)
            (fun s hs => (hgood s hs).2.2.2) hpre
        obtain ⟨extra, hextra⟩ := hbf
        have hexne : extra ≠ [] := by
          intro hnil
          rw [hnil, List.append_nil] at hextra
          rw [← hextra] at hpre
          have := hpre.length_le
          simp at this
        refine ⟨extra, hexne, hextra.symm, ?_, ?_⟩
        · rw [← hp, hextra]
        · intro s hs
          have hmem : s ∈ full := hextra ▸ List.mem_append_right baseSegs hs
          exact hgood s hmem
      · rw [if_pos h2] at hp
        exact absurd hp (by simp)
    · rw [if_pos h1] at hp
      exact absurd hp (by simp)

/-- The uploads root used by witnesses: `/srv/uploads`. -/
def wBase : List JStr := [['s', 'r', 'v'], ['u', 'p', 'l', 'o', 'a', 'd', 's']]

theorem C3_witness :
    resolveUploadsPath wBase "/etc/passwd".data = .error "Invalid uploads URL".data ∧
    resolveUploadsPath wBase "/uploads/../secret".data = .error "Invalid uploads path".data ∧
    (∃ extra, extra ≠ [] ∧
      pathResolve wBase ("/uploads/covers/a.png".data.drop uploadsSlash.length) =
        wBase ++ extra ∧
      "/srv/uploads/covers/a.png".data = renderAbs (wBase ++ extra) ∧
      ∀ s ∈ extra, s ≠ [] ∧ s ≠ ['.'] ∧ s ≠ ['.', '.'] ∧ '/' ∉ s) := by
  refine ⟨?_, ?_, ?_⟩
  · exact (C3_resolveUploadsPath_sandbox wBase "/etc/passwd".data (by decide) (by decide)).1
      (by decide)
  · exact (C3_resolveUploadsPath_sandbox wBase "/uploads/../secret".data (by decide)
      (by decide)).2.1 (by decide) (by decide)
  · exact (C3_resolveUploadsPath_sandbox wBase "/uploads/covers/a.png".data (by decide)
      (by decide)).2.2 "/srv/uploads/covers/a.png".data (by rfl)

/-! ## Asset Lifecycle Manager (server.ts:532-590, 646-696, 851-959)

Handlers are modelled as pure state transformers over the stores they touch,
with one Boolean per fallible I/O step injecting its outcome, and an event
trace listing the operations issued in program order. -/

/-- Side effects issued by a handler, in program order. -/
inductive Eff
  | r2Put (key : JStr)
  | r2Delete (key : JStr)
  | dbInsertProject (pid : Nat)
  | dbDeleteProject (pid : Nat)
  | dbUpdateCover (pid : Nat) (url : JStr) (key : Option JStr)
  | fsUnlink (path : JStr)
  | respOk
  | respErr (status : Nat)
deriving DecidableEq, Repr

/-- The storage state the asset lifecycle touches: the `projects` table, the
object keys present in the Remote Object Store bucket, and the absolute
paths present under the Local Disk uploads root. -/
structure StoreState where
  projects : List ProjectRow
  r2Objects : List JStr
  localFiles : List JStr
deriving DecidableEq, Repr

/-- The literal `'/uploads/covers/'`. -/
def uploadsCoversSlash : JStr :=
  ['/', 'u', 'p', 'l', 'o', 'a', 'd', 's', '/', 'c', 'o', 'v', 'e', 'r', 's', '/']

/-- A guarded `deleteObjectFromR2` call wrapped in try/catch (failure logged
and swallowed): issued only when `guard` holds; `deleteObjectFromR2` itself
returns without sending anything when the Remote Object Store is not
configured (server.ts:90-98); the key disappears from the bucket only when
the call succeeds (`ok`). -/
def r2DeleteAttempt (r2Enabled ok guard : Bool) (k : JStr) (st : StoreState) :
    StoreState × List Eff :=
  if guard then
    if r2Enabled then
      (if ok then { st with r2Objects := st.r2Objects.erase k } else st, [.r2Delete k])
    else (st, [])
  else (st, [])

/-- A guarded local-file deletion attempt wrapped in try/catch (all errors
ignored): when `guard` holds, resolve the URL through the path sandbox (a
thrown resolution error is caught), check `existsSync`, and `unlinkSync`;
the file disappears only when the unlink succeeds (`ok`). -/
def localUnlinkAttempt (ok guard : Bool) (url : JStr) (baseSegs : List JStr)
    (st : StoreState) : StoreState × List Eff :=
  if guard then
    match resolveUploadsPath baseSegs url with
    | .error _ => (st, [])
    | .ok p =>
      if p ∈ st.localFiles then
        (if ok then { st with localFiles := st.localFiles.erase p } else st, [.fsUnlink p])
      else (st, [])
  else (st, [])

/-- `POST /api/projects` (server.ts:532-590) with the Remote Object Store
active and a file present.  `objectKey` is the fresh collision-resistant key,
`publicUrl` its public URL, `tmpPath` multer's spooled file (unlinked in the
`finally` block).  `uploadOk`, `insertOk`, `selectOk`, `deleteOk` inject the
outcomes of `putObjectToR2`, the INSERT, `getProjectWithOwner`, and the
compensating `deleteObjectFromR2` in the catch block, which runs only when
`uploadedObjectKey` was set (i.e. after a successful upload). -/
def createProjectR2 (st : StoreState) (rawName : JStr) (uid pid createdAt : Nat)
    (objectKey publicUrl tmpPath : JStr)
    (uploadOk insertOk selectOk deleteOk : Bool) : StoreState × List Eff × Nat :=
  let storedName := if trimJs rawName = [] then "Untitled Project".data else trimJs rawName
  let finallyFs (s : StoreState) : StoreState :=
    { s with localFiles := s.localFiles.erase tmpPath }
  if uploadOk = false then
    (finallyFs st, [.r2Put objectKey, .respErr 500, .fsUnlink tmpPath], 500)
  else
    let st1 := { st with r2Objects := st.r2Objects ++ [objectKey] }
    if insertOk = false then
      let st2 := if deleteOk then { st1 with r2Objects := st1.r2Objects.erase objectKey }
        else st1
      (finallyFs st2, [.r2Put objectKey, .r2Delete objectKey, .respErr 500, .fsUnlink tmpPath],
        500)
    else
      let row : ProjectRow :=
        ⟨pid, storedName, publicUrl, some objectKey, none, none, none, none, createdAt, some uid⟩
      let st2 := { st1 with projects := st1.projects ++ [row] }
      if selectOk = false then
        let st3 := if deleteOk then { st2 with r2Objects := st2.r2Objects.erase objectKey }
          else st2
        (finallyFs st3,
          [.r2Put objectKey, .dbInsertProject pid, .r2Delete objectKey, .respErr 500,
            .fsUnlink tmpPath], 500)
      else
        (finallyFs st2, [.r2Put objectKey, .dbInsertProject pid, .respOk, .fsUnlink tmpPath], 200)

/-- The storage/pointer tail of `POST /api/generate-cover/:id`
(server.ts:916-951), starting from the `downloadCoverToStorage` result.
`storedCover` is that result (`none` models its internal, caught failure
path); `coverSourceUrl` is the generated source URL used as the pointer when
nothing was stored locally; `updateOk` injects the outcome of the `UPDATE`
of the cover pointer fields, `selectOk` of the final `getProjectWithOwner`,
`r2DeleteOk`/`unlinkOk` of the two previous-cover deletion attempts. -/
def generateCoverTail (r2Enabled : Bool) (st : StoreState) (project : ProjectRow)
    (storedCover : Option (JStr × Option JStr)) (coverSourceUrl : JStr)
    (baseSegs : List JStr) (updateOk selectOk r2DeleteOk unlinkOk : Bool) :
    StoreState × List Eff × Nat :=
  if r2Enabled = true ∧ storedCover = none then
    (st, [.respErr 500], 500)
  else
    let coverUrlToStore := match storedCover with | some (u, _) => u | none => coverSourceUrl
    let coverObjectKeyToStore : Option JStr :=
      match storedCover with | some (_, k) => k | none => none
    if updateOk = false then
      (st, [.respErr 500], 500)
    else
      let st1 := { st with projects := st.projects.map (fun p =>
        if p.id = project.id then
          { p with cover_url := some coverUrlToStore,
                   cover_object_key := coverObjectKeyToStore }
        else p) }
      let ev1 := [Eff.dbUpdateCover project.id coverUrlToStore coverObjectKeyToStore]
      let a :=
        match project.cover_object_key, coverObjectKeyToStore with
        | some prevKey, some newKey =>
          r2DeleteAttempt r2Enabled r2DeleteOk (decide (prevKey ≠ newKey)) prevKey st1
        | _, _ => (st1, [])
      let b :=
        match project.cover_url with
        | some prevUrl =>
          localUnlinkAttempt unlinkOk
            (uploadsCoversSlash.isPrefixOf prevUrl && decide (prevUrl ≠ coverUrlToStore))
            prevUrl baseSegs a.1
        | none => (a.1, [])
      if selectOk = false then
        (b.1, ev1 ++ a.2 ++ b.2 ++ [.respErr 500], 500)
      else
        (b.1, ev1 ++ a.2 ++ b.2 ++ [.respOk], 200)

/-- The `if (project.*_object_key) { try { await deleteObjectFromR2(...) } }`
pattern of the delete handler (server.ts:657-671), for one optional key. -/
def r2DeleteKeyStep (r2Enabled ok : Bool) (key : Option JStr) (st : StoreState) :
    StoreState × List Eff :=
  match key with
  | some k => r2DeleteAttempt r2Enabled ok true k st
  | none => (st, [])

/-- The `if (project.cover_url?.startsWith('/uploads/covers/')) { try ... }`
pattern of the delete handler (server.ts:682-689). -/
def localCoverUnlinkStep (ok : Bool) (coverUrl : Option JStr) (baseSegs : List JStr)
    (st : StoreState) : StoreState × List Eff :=
  match coverUrl with
  | some cu => localUnlinkAttempt ok (uploadsCoversSlash.isPrefixOf cu) cu baseSegs st
  | none => (st, [])

/-- `DELETE /api/projects/:id` (server.ts:646-696) after a successful write
access check on `project`: delete the row, then issue the four best-effort
blob deletion attempts (R2 audio, R2 cover, local audio under `/uploads/`,
local cover under `/uploads/covers/`), each in its own try/catch, and report
success. -/
def deleteProjectHandler (r2Enabled : Bool) (st : StoreState) (project : ProjectRow)
    (baseSegs : List JStr)
    (dbDeleteOk audioR2Ok coverR2Ok audioFsOk coverFsOk : Bool) :
    StoreState × List Eff × Nat :=
  if dbDeleteOk = false then
    (st, [.respErr 500], 500)
  else
    let st1 := { st with projects := st.projects.filter (fun p => decide (p.id ≠ project.id)) }
    let a := r2DeleteKeyStep r2Enabled audioR2Ok project.audio_object_key st1
    let b := r2DeleteKeyStep r2Enabled coverR2Ok project.cover_object_key a.1
    let c := localUnlinkAttempt audioFsOk (uploadsSlash.isPrefixOf project.audio_url)
      project.audio_url baseSegs b.1
    let d := localCoverUnlinkStep coverFsOk project.cover_url baseSegs c.1
    (d.1, [Eff.dbDeleteProject project.id] ++ a.2 ++ b.2 ++ c.2 ++ d.2 ++ [.respOk], 200)

/-- An R2 delete attempt never touches the table or the local disk. -/
theorem r2DeleteAttempt_state (r2Enabled ok guard : Bool) (k : JStr) (st : StoreState) :
    (r2DeleteAttempt r2Enabled ok guard k st).1.projects = st.projects ∧
    (r2DeleteAttempt r2Enabled ok guard k st).1.localFiles = st.localFiles := by
  cases guard <;> cases r2Enabled <;> cases ok <;> simp [r2DeleteAttempt]

/-- An R2 delete attempt issues at most its own delete, independently of the
call's outcome. -/
theorem r2DeleteAttempt_events (r2Enabled ok guard : Bool) (k : JStr) (st : StoreState) :
    (r2DeleteAttempt r2Enabled ok guard k st).2 = [] ∨
    (r2DeleteAttempt r2Enabled ok guard k st).2 = [.r2Delete k] := by
  cases guard <;> cases r2Enabled <;> cases ok <;> simp [r2DeleteAttempt]

/-- With the store active and the guard true, the delete attempt is issued,
and the key disappears exactly when the call succeeds. -/
theorem r2DeleteAttempt_pos (ok : Bool) (k : JStr) (st : StoreState) :
    r2DeleteAttempt true ok true k st =
      (if ok = true then { st with r2Objects := st.r2Objects.erase k } else st,
        [.r2Delete k]) := by
  cases ok <;> simp [r2DeleteAttempt]

/-- A local unlink attempt never touches the table or the bucket. -/
theorem localUnlinkAttempt_state (ok guard : Bool) (url : JStr) (baseSegs : List JStr)
    (st : StoreState) :
    (localUnlinkAttempt ok guard url baseSegs st).1.projects = st.projects ∧
    (localUnlinkAttempt ok guard url baseSegs st).1.r2Objects = st.r2Objects := by
  unfold localUnlinkAttempt
  cases guard
  · simp
  · simp only [if_pos]
    cases resolveUploadsPath baseSegs url with
    | error e => exact ⟨rfl, rfl⟩
    | ok p =>
      dsimp only
      by_cases hmem : p ∈ st.localFiles
      · rw [if_pos hmem]
        cases ok <;> simp
      · rw [if_neg hmem]
        exact ⟨rfl, rfl⟩

/-- A local unlink attempt leaves the disk unchanged or erases exactly the
resolved path. -/
theorem localUnlinkAttempt_localFiles (ok guard : Bool) (url : JStr) (baseSegs : List JStr)
    (st : StoreState) :
    (localUnlinkAttempt ok guard url baseSegs st).1.localFiles = st.localFiles ∨
    ∃ p, resolveUploadsPath baseSegs url = .ok p ∧
      (localUnlinkAttempt ok guard url baseSegs st).1.localFiles = st.localFiles.erase p := by
  unfold localUnlinkAttempt
  cases guard
  · simp
  · simp only [if_pos]
    cases hres : resolveUploadsPath baseSegs url with
    | error e => exact Or.inl rfl
    | ok p =>
      dsimp only
      by_cases hmem : p ∈ st.localFiles
      · rw [if_pos hmem]
        cases ok
        · exact Or.inl rfl
        · exact Or.inr ⟨p, rfl, rfl⟩
      · rw [if_neg hmem]
        exact Or.inl rfl

/-- A local unlink attempt issues at most one unlink, of its resolved path,
independently of the unlink's outcome. -/
theorem localUnlinkAttempt_events (ok guard : Bool) (url : JStr) (baseSegs : List JStr)
    (st : StoreState) :
    (localUnlinkAttempt ok guard url baseSegs st).2 = [] ∨
    ∃ p, resolveUploadsPath baseSegs url = .ok p ∧
      (localUnlinkAttempt ok guard url baseSegs st).2 = [.fsUnlink p] := by
  unfold localUnlinkAttempt
  cases guard
  · simp
  · simp only [if_pos]
    cases hres : resolveUploadsPath baseSegs url with
    | error e => exact Or.inl rfl
    | ok p =>
      dsimp only
      by_cases hmem : p ∈ st.localFiles
      · rw [if_pos hmem]
        exact Or.inr ⟨p, rfl, by cases ok <;> rfl⟩
      · rw [if_neg hmem]
        exact Or.inl rfl

/-- With the guard true, a resolvable URL and an existing file, the unlink
attempt is issued, and the file disappears exactly when the unlink
succeeds. -/
theorem localUnlinkAttempt_pos (ok : Bool) (url p : JStr) (baseSegs : List JStr)
    (st : StoreState) (hres : resolveUploadsPath baseSegs url = .ok p)
    (hmem : p ∈ st.localFiles) :
    localUnlinkAttempt ok true url baseSegs st =
      (if ok = true then { st with localFiles := st.localFiles.erase p } else st,
        [.fsUnlink p]) := by
  unfold localUnlinkAttempt
  rw [if_pos rfl, hres]
  dsimp only
  rw [if_pos hmem]

/-- C2: with the Remote Object Store active, when the INSERT of the project
row fails after a successful upload, the compensating delete is issued for
exactly the uploaded key, before the 500 error response is sent; the table
is unchanged; and when the compensating delete succeeds, the bucket returns
to its pre-request contents — no orphaned remote object remains. -/
theorem C2_create_audio_compensation (st : StoreState) (rawName : JStr)
    (uid pid createdAt : Nat) (objectKey publicUrl tmpPath : JStr)
    (selectOk deleteOk : Bool) (hfresh : objectKey ∉ st.r2Objects) :
    createProjectR2 st rawName uid pid createdAt objectKey publicUrl tmpPath
        true false selectOk deleteOk =
      ({ projects := st.projects,
         r2Objects := if deleteOk = true then st.r2Objects else st.r2Objects ++ [objectKey],
         localFiles := st.localFiles.erase tmpPath },
       [.r2Put objectKey, .r2Delete objectKey, .respErr 500, .fsUnlink tmpPath], 500) := by
  have herase : (st.r2Objects ++ [objectKey]).erase objectKey = st.r2Objects := by
    rw [List.erase_append_right [objectKey] hfresh]
    simp
  unfold createProjectR2
  rw [if_neg (by simp), if_pos rfl]
  cases deleteOk <;> simp [herase]

theorem C2_witness :
    createProjectR2 ⟨[], [['b']], [['t', 'm', 'p']]⟩ ['n'] 1 7 0 ['k'] ['u'] ['t', 'm', 'p']
        true false true true =
      ({ projects := [], r2Objects := if true = true then [['b']] else [['b']] ++ [['k']],
         localFiles := ([['t', 'm', 'p']] : List JStr).erase ['t', 'm', 'p'] },
       [.r2Put ['k'], .r2Delete ['k'], .respErr 500, .fsUnlink ['t', 'm', 'p']], 500) :=
  C2_create_audio_compensation ⟨[], [['b']], [['t', 'm', 'p']]⟩ ['n'] 1 7 0 ['k'] ['u']
    ['t', 'm', 'p'] true true (by decide)

/-- A local unlink attempt with a false guard does nothing. -/
theorem localUnlinkAttempt_false (ok : Bool) (url : JStr) (baseSegs : List JStr)
    (st : StoreState) : localUnlinkAttempt ok false url baseSegs st = (st, []) := rfl

/-- C1: replace-cover ordering.  (1) When the UPDATE of the cover pointer
fields fails after the new object was stored, the whole state — pointer
fields, bucket, disk — is unchanged and no deletion is issued.  (2) With the
Remote Object Store active, a stored new cover and a previous cover object
key differing from the new key: after the successful UPDATE the previous key
is deleted exactly once, the deletion event following the pointer-update
event, and the previous object leaves the bucket exactly when that delete
succeeds.  (3) Likewise, a previous Local-Disk cover file differing from the
new cover URL is unlinked exactly once, after the pointer update. -/
theorem C1_replace_cover_ordering (r2Enabled : Bool) (st : StoreState)
    (project : ProjectRow) (storedCover : Option (JStr × Option JStr))
    (coverSourceUrl : JStr) (baseSegs : List JStr) (selectOk r2DeleteOk unlinkOk : Bool) :
    (generateCoverTail r2Enabled st project storedCover coverSourceUrl baseSegs
        false selectOk r2DeleteOk unlinkOk = (st, [.respErr 500], 500)) ∧
    (∀ prevKey newUrl newKey,
      project.cover_object_key = some prevKey →
      storedCover = some (newUrl, some newKey) →
      prevKey ≠ newKey →
      r2Enabled = true →
      (∀ u, project.cover_url = some u → uploadsCoversSlash.isPrefixOf u = false) →
      generateCoverTail r2Enabled st project storedCover coverSourceUrl baseSegs
          true selectOk r2DeleteOk unlinkOk =
        ({ projects := st.projects.map (fun p =>
             if p.id = project.id then
               { p with cover_url := some newUrl, cover_object_key := some newKey }
             else p),
           r2Objects := if r2DeleteOk = true then st.r2Objects.erase prevKey
             else st.r2Objects,
           localFiles := st.localFiles },
         [.dbUpdateCover project.id newUrl (some newKey), .r2Delete prevKey] ++
           (if selectOk = false then [.respErr 500] else [.respOk]),
         if selectOk = false then 500 else 200)) ∧
    (∀ prevUrl prevPath newUrl newKeyOpt,
      project.cover_object_key = none →
      project.cover_url = some prevUrl →
      uploadsCoversSlash.isPrefixOf prevUrl = true →
      storedCover = some (newUrl, newKeyOpt) →
      prevUrl ≠ newUrl →
      resolveUploadsPath baseSegs prevUrl = .ok prevPath →
      prevPath ∈ st.localFiles →
      generateCoverTail r2Enabled st project storedCover coverSourceUrl baseSegs
          true selectOk r2DeleteOk unlinkOk =
        ({ projects := st.projects.map (fun p =>
             if p.id = project.id then
               { p with cover_url := some newUrl, cover_object_key := newKeyOpt }
             else p),
           r2Objects := st.r2Objects,
           localFiles := if unlinkOk = true then st.localFiles.erase prevPath
             else st.localFiles },
         [.dbUpdateCover project.id newUrl newKeyOpt, .fsUnlink prevPath] ++
           (if selectOk = false then [.respErr 500] else [.respOk]),
         if selectOk = false then 500 else 200)) := by
  refine ⟨?_, ?_, ?_⟩
  · unfold generateCoverTail
    by_cases hg : r2Enabled = true ∧ storedCover = none
    · rw [if_pos hg]
    · rw [if_neg hg]
      dsimp only
      rw [if_pos rfl]
  · intro prevKey newUrl newKey hkey hsc hne hr2 hurl
    subst hr2
    unfold generateCoverTail
    rw [hsc, hkey]
    rw [if_neg (by simp)]
    dsimp only
    rw [if_neg (by simp)]
    rw [decide_eq_true hne]
    rw [r2DeleteAttempt_pos r2DeleteOk prevKey _]
    cases hcu : project.cover_url with
    | none =>
      dsimp only
      cases r2DeleteOk <;> cases selectOk <;> simp
    | some u =>
      dsimp only
      rw [hurl u hcu]
      simp only [Bool.false_and]
      rw [localUnlinkAttempt_false]
      cases r2DeleteOk <;> cases selectOk <;> simp
  · intro prevUrl prevPath newUrl newKeyOpt hkey hcu hpre hsc hne hres hmem
    unfold generateCoverTail
    rw [hsc, hkey, hcu]
    by_cases hg : r2Enabled = true ∧ (some (newUrl, newKeyOpt) : Option (JStr × Option JStr)) = none
    · exact absurd hg.2 (by simp)
    · rw [if_neg hg]
      dsimp only
      rw [if_neg (by simp)]
      rw [hpre, decide_eq_true hne]
      simp only [Bool.true_and]
      have hrw := localUnlinkAttempt_pos unlinkOk prevUrl prevPath baseSegs
        { projects := st.projects.map (fun p =>
            if p.id = project.id then
              { p with cover_url := some newUrl, cover_object_key := newKeyOpt }
            else p),
          r2Objects := st.r2Objects, localFiles := st.localFiles } hres hmem
      rw [hrw]
      cases unlinkOk <;> cases selectOk <;> simp

/-- An optional-key R2 delete step never touches the table. -/
theorem r2DeleteKeyStep_projects (r2Enabled ok : Bool) (key : Option JStr)
    (st : StoreState) : (r2DeleteKeyStep r2Enabled ok key st).1.projects = st.projects := by
  cases key with
  | none => rfl
  | some k => exact (r2DeleteAttempt_state r2Enabled ok true k st).1

/-- An optional-key R2 delete step never touches the local disk. -/
theorem r2DeleteKeyStep_localFiles (r2Enabled ok : Bool) (key : Option JStr)
    (st : StoreState) : (r2DeleteKeyStep r2Enabled ok key st).1.localFiles = st.localFiles := by
  cases key with
  | none => rfl
  | some k => exact (r2DeleteAttempt_state r2Enabled ok true k st).2

/-- With the store active and a key present, the R2 delete attempt is
issued. -/
theorem r2DeleteKeyStep_some_events (ok : Bool) (k : JStr) (st : StoreState) :
    (r2DeleteKeyStep true ok (some k) st).2 = [.r2Delete k] := by
  unfold r2DeleteKeyStep
  dsimp only
  rw [r2DeleteAttempt_pos]

/-- An optional-cover unlink step never touches the table. -/
theorem localCoverUnlinkStep_projects (ok : Bool) (coverUrl : Option JStr)
    (baseSegs : List JStr) (st : StoreState) :
    (localCoverUnlinkStep ok coverUrl baseSegs st).1.projects = st.projects := by
  cases coverUrl with
  | none => rfl
  | some cu => exact (localUnlinkAttempt_state ok _ cu baseSegs st).1

/-- Reduction of the optional-cover unlink step on a present cover URL. -/
theorem localCoverUnlinkStep_some (ok : Bool) (cu : JStr) (baseSegs : List JStr)
    (st : StoreState) :
    localCoverUnlinkStep ok (some cu) baseSegs st =
      localUnlinkAttempt ok (uploadsCoversSlash.isPrefixOf cu) cu baseSegs st := rfl

/-- A local unlink attempt never touches the table (projection form). -/
theorem localUnlinkAttempt_projects (ok guard : Bool) (url : JStr) (baseSegs : List JStr)
    (st : StoreState) :
    (localUnlinkAttempt ok guard url baseSegs st).1.projects = st.projects :=
  (localUnlinkAttempt_state ok guard url baseSegs st).1

/-- C9: for every authorized deletion whose row delete succeeds, and for
every combination of blob-deletion outcomes: the response is success (200);
the row is gone and the resulting table does not depend on any blob outcome;
the trace starts with the row deletion, so the row is removed before any
blob deletion attempt; the R2 audio and cover deletes are both issued
whenever the project carries the corresponding object key (store active),
and the local audio and cover unlinks are both issued whenever the
corresponding URL passes its guard, resolves, and the file exists —
regardless of the outcomes of the other attempts. -/
theorem C9_delete_project_best_effort (r2Enabled : Bool) (st : StoreState)
    (project : ProjectRow) (baseSegs : List JStr)
    (audioR2Ok coverR2Ok audioFsOk coverFsOk : Bool) :
    (deleteProjectHandler r2Enabled st project baseSegs true
        audioR2Ok coverR2Ok audioFsOk coverFsOk).2.2 = 200 ∧
    (deleteProjectHandler r2Enabled st project baseSegs true
        audioR2Ok coverR2Ok audioFsOk coverFsOk).1.projects =
      st.projects.filter (fun p => decide (p.id ≠ project.id)) ∧
    (deleteProjectHandler r2Enabled st project baseSegs true
        audioR2Ok coverR2Ok audioFsOk coverFsOk).2.1.head? =
      some (.dbDeleteProject project.id) ∧
    (∀ k, project.audio_object_key = some k → r2Enabled = true →
      Eff.r2Delete k ∈ (deleteProjectHandler r2Enabled st project baseSegs true
        audioR2Ok coverR2Ok audioFsOk coverFsOk).2.1) ∧
    (∀ k, project.cover_object_key = some k → r2Enabled = true →
      Eff.r2Delete k ∈ (deleteProjectHandler r2Enabled st project baseSegs true
        audioR2Ok coverR2Ok audioFsOk coverFsOk).2.1) ∧
    (∀ ap, uploadsSlash.isPrefixOf project.audio_url = true →
      resolveUploadsPath baseSegs project.audio_url = .ok ap → ap ∈ st.localFiles →
      Eff.fsUnlink ap ∈ (deleteProjectHandler r2Enabled st project baseSegs true
        audioR2Ok coverR2Ok audioFsOk coverFsOk).2.1) ∧
    (∀ cu cp, project.cover_url = some cu →
      uploadsCoversSlash.isPrefixOf cu = true →
      resolveUploadsPath baseSegs cu = .ok cp → cp ∈ st.localFiles →
      (∀ ap, resolveUploadsPath baseSegs project.audio_url = .ok ap → cp ≠ ap) →
      Eff.fsUnlink cp ∈ (deleteProjectHandler r2Enabled st project baseSegs true
        audioR2Ok coverR2Ok audioFsOk coverFsOk).2.1) := by
  unfold deleteProjectHandler
  rw [if_neg (by simp)]
  dsimp only
  refine ⟨rfl, ?_, rfl, ?_, ?_, ?_, ?_⟩
  · simp only [localCoverUnlinkStep_projects, localUnlinkAttempt_projects,
      r2DeleteKeyStep_projects]
  · intro k hk hr2
    subst hr2
    rw [hk, r2DeleteKeyStep_some_events]
    simp [List.mem_append]
  · intro k hk hr2
    subst hr2
    rw [hk, r2DeleteKeyStep_some_events]
    simp [List.mem_append]
  · intro ap hpre hres hmem
    rw [hpre]
    have hmemB : ap ∈ (r2DeleteKeyStep r2Enabled coverR2Ok project.cover_object_key
        (r2DeleteKeyStep r2Enabled audioR2Ok project.audio_object_key
          { st with projects :=
              st.projects.filter (fun p => decide (p.id ≠ project.id)) }).1).1.localFiles := by
      rw [r2DeleteKeyStep_localFiles, r2DeleteKeyStep_localFiles]
      exact hmem
    rw [localUnlinkAttempt_pos audioFsOk project.audio_url ap baseSegs _ hres hmemB]
    simp [List.mem_append]
  · intro cu cp hcu hpre2 hres2 hmem2 hap
    rw [hcu, localCoverUnlinkStep_some, hpre2]
    have hmemC : cp ∈ (localUnlinkAttempt audioFsOk
        (uploadsSlash.isPrefixOf project.audio_url) project.audio_url baseSegs
        (r2DeleteKeyStep r2Enabled coverR2Ok project.cover_object_key
          (r2DeleteKeyStep r2Enabled audioR2Ok project.audio_object_key
            { st with projects :=
                st.projects.filter (fun p => decide (p.id ≠ project.id)) }).1).1).1.localFiles := by
      rcases localUnlinkAttempt_localFiles audioFsOk
          (uploadsSlash.isPrefixOf project.audio_url) project.audio_url baseSegs
          (r2DeleteKeyStep r2Enabled coverR2Ok project.cover_object_key
            (r2DeleteKeyStep r2Enabled audioR2Ok project.audio_object_key
              { st with projects :=
                  st.projects.filter (fun p => decide (p.id ≠ project.id)) }).1).1
        with heq | ⟨p2, hp2, heq⟩
      · rw [heq, r2DeleteKeyStep_localFiles, r2DeleteKeyStep_localFiles]
        exact hmem2
      · rw [heq, r2DeleteKeyStep_localFiles, r2DeleteKeyStep_localFiles]
        exact (List.mem_erase_of_ne (hap p2 hp2)).mpr hmem2
    rw [localUnlinkAttempt_pos coverFsOk cu cp baseSegs _ hres2 hmemC]
    simp [List.mem_append]

/-- A concrete project carrying a previous R2 cover, for the C1 witness. -/
def wPrevProject : ProjectRow :=
  ⟨5, ['p'], ['a'], none, none, none, some ['h'], some ['o'], 0, some 1⟩

theorem C1_witness :
    generateCoverTail true ⟨[wPrevProject], [['o']], []⟩ wPrevProject
        (some (['u'], some ['n'])) ['s'] wBase true true true true =
      ({ projects := ([wPrevProject] : List ProjectRow).map (fun p =>
           if p.id = wPrevProject.id then
             { p with cover_url := some ['u'], cover_object_key := some ['n'] }
           else p),
         r2Objects := if (true : Bool) = true then ([['o']] : List JStr).erase ['o']
           else [['o']],
         localFiles := [] },
       [.dbUpdateCover wPrevProject.id ['u'] (some ['n']), .r2Delete ['o']] ++
         (if (true : Bool) = false then [.respErr 500] else [.respOk]),
       if (true : Bool) = false then 500 else 200) :=
  (C1_replace_cover_ordering true ⟨[wPrevProject], [['o']], []⟩ wPrevProject
      (some (['u'], some ['n'])) ['s'] wBase true true true).2.1
    ['o'] ['u'] ['n'] rfl rfl (by decide) rfl
    (fun u hu => by
      injection hu with hu2
      rw [← hu2]
      decide)

/-- A concrete project with both object keys and local files, for the C9
witness. -/
def wDelProject : ProjectRow :=
  ⟨3, ['d'], ("/uploads/x.mp3".data), some ['a'], none, none,
    some ("/uploads/covers/c.png".data), some ['c'], 0, some 1⟩

/-- The store state for the C9 witness. -/
def wDelState : StoreState :=
  ⟨[wDelProject], [['a'], ['c']],
    [("/srv/uploads/x.mp3".data), ("/srv/uploads/covers/c.png".data)]⟩

theorem C9_witness :
    (deleteProjectHandler true wDelState wDelProject wBase true true true true true).2.2 =
      200 ∧
    Eff.r2Delete ['a'] ∈
      (deleteProjectHandler true wDelState wDelProject wBase true true true true true).2.1 ∧
    Eff.r2Delete ['c'] ∈
      (deleteProjectHandler true wDelState wDelProject wBase true true true true true).2.1 ∧
    Eff.fsUnlink ("/srv/uploads/x.mp3".data) ∈
      (deleteProjectHandler true wDelState wDelProject wBase true true true true true).2.1 ∧
    Eff.fsUnlink ("/srv/uploads/covers/c.png".data) ∈
      (deleteProjectHandler true wDelState wDelProject wBase true true true true true).2.1 := by
  have h := C9_delete_project_best_effort true wDelState wDelProject wBase true true true true
  refine ⟨h.1, h.2.2.2.1 ['a'] rfl rfl, h.2.2.2.2.1 ['c'] rfl rfl,
    h.2.2.2.2.2.1 ("/srv/uploads/x.mp3".data) (by decide) (by rfl) (by decide),
    h.2.2.2.2.2.2 ("/uploads/covers/c.png".data) ("/srv/uploads/covers/c.png".data) rfl
      (by decide) (by rfl) (by decide) ?_⟩
  intro ap2 h2
  rw [show resolveUploadsPath wBase wDelProject.audio_url =
    .ok ("/srv/uploads/x.mp3".data) from rfl] at h2
  injection h2 with h3
  rw [← h3]
  decide

/-- Concrete rows and caller for the C10 witness. -/
def wProj1 : ProjectRow :=
  ⟨1, ['o', 'n', 'e'], ['/', 'u'], none, none, none, none, none, 10, some 1⟩

def wProj2 : ProjectRow :=
  ⟨2, ['t', 'w', 'o'], ['/', 'v'], none, none, none, none, none, 11, some 2⟩

def wAdmin : AuthUser := ⟨9, ['r', 'o', 'o', 't'], .admin⟩

theorem C10_witness :
    (putProjectEndpoint [wProj1, wProj2] 1 wAdmin [' ', 'n', ' ']).1.length = 2 ∧
    (∃ q, (putProjectEndpoint [wProj1, wProj2] 1 wAdmin [' ', 'n', ' ']).1[1]? = some q ∧
      q = wProj2) := by
  have h := C10_rename_updates_only_name [wProj1, wProj2] 1 wAdmin [' ', 'n', ' ']
    (putProjectEndpoint [wProj1, wProj2] 1 wAdmin [' ', 'n', ' ']) rfl (by decide)
  refine ⟨by rw [h.1]; rfl, ?_⟩
  rcases h.2 1 (by decide) with ⟨q, hq, _, hfr, _⟩
  exact ⟨q, hq, hfr (by decide)⟩
